import Mathlib

/-!
Verification of the Text2Cal memory relevance and recommendation engine.

This file gives a shallow embedding of the core scoring code
(`backend/text2cal/memory_analyzer.py`, `backend/memory_model.py`,
`backend/recommendation.py`) and proves or refutes the specification
claims about it.

Modelling conventions:
* Python `datetime` values are modelled as integer timestamps counted in
  seconds; `timedelta.days` is floor division by 86400 (Python's
  `timedelta` normalises with floor semantics, so negative intervals
  round towards negative infinity).
* Python floats are modelled as exact real numbers (`ℝ`) where
  transcendental functions occur, and as rationals (`ℚ`) for the purely
  arithmetic weight bookkeeping.
* Python dicts keyed by strings are modelled as association lists with
  insert-or-overwrite semantics (`dictInsert`), which preserves the
  original insertion position of an overwritten key exactly as CPython
  dicts do.
-/

/-- Seconds in one day, the divisor used by `timedelta.days`. -/
def secondsPerDay : ℤ := 86400

/-- `timedelta.days` for an interval of `d` seconds: floor division by
86400 (negative intervals round down, e.g. an interval of -1 second has
`days = -1`). -/
def timedeltaDays (d : ℤ) : ℤ := Int.fdiv d secondsPerDay

/-- The clamp `min(max(x, 0), 1)` that the scoring code applies. -/
noncomputable def clamp01 (x : ℝ) : ℝ := min (max x 0) 1

/-- `MemoryAnalyzer.compute_recency_score`: `days_diff = (current_date -
log_date).days`, then `exp(-days_diff / 30)` clamped to `[0, 1]`. -/
noncomputable def compute_recency_score (log_date current_date : ℤ) : ℝ :=
  clamp01 (Real.exp (-((timedeltaDays (current_date - log_date) : ℝ)) / 30))

lemma clamp01_of_mem {x : ℝ} (h0 : 0 ≤ x) (h1 : x ≤ 1) : clamp01 x = x := by
  unfold clamp01
  rw [max_eq_left h0, min_eq_left h1]

lemma clamp01_of_one_le {x : ℝ} (h : 1 ≤ x) : clamp01 x = 1 := by
  unfold clamp01
  rw [min_eq_right]
  exact le_max_of_le_left h

lemma timedeltaDays_neg {d : ℤ} (h : d < 0) : timedeltaDays d < 0 := by
  unfold timedeltaDays secondsPerDay
  rw [Int.fdiv_eq_ediv _ (by norm_num)]
  exact Int.ediv_neg' h (by norm_num)

lemma timedeltaDays_nonneg {d : ℤ} (h : 0 ≤ d) : 0 ≤ timedeltaDays d := by
  unfold timedeltaDays secondsPerDay
  rw [Int.fdiv_eq_ediv _ (by norm_num)]
  exact Int.ediv_nonneg h (by norm_num)

lemma timedeltaDays_mono {a b : ℤ} (h : a ≤ b) : timedeltaDays a ≤ timedeltaDays b := by
  unfold timedeltaDays secondsPerDay
  rw [Int.fdiv_eq_ediv _ (by norm_num), Int.fdiv_eq_ediv _ (by norm_num)]
  exact Int.ediv_le_ediv (by norm_num) h

/-- Unclamped exponential lies in `(0, 1]` when the day difference is
nonnegative, so the clamp is the identity there. -/
lemma recency_eq_exp_of_nonneg {log_date current_date : ℤ}
    (h : 0 ≤ timedeltaDays (current_date - log_date)) :
    compute_recency_score log_date current_date =
      Real.exp (-((timedeltaDays (current_date - log_date) : ℝ)) / 30) := by
  unfold compute_recency_score
  apply clamp01_of_mem (Real.exp_pos _).le
  rw [Real.exp_le_one_iff]
  have : (0 : ℝ) ≤ (timedeltaDays (current_date - log_date) : ℝ) := by exact_mod_cast h
  linarith

/-- C10: every log whose timestamp is strictly later than the supplied
current date receives recency score exactly 1: the day difference is
negative, the exponential exceeds 1, and the upper clamp fires. -/
theorem recency_future_entries_score_one (log_date current_date : ℤ)
    (h : current_date < log_date) :
    compute_recency_score log_date current_date = 1 := by
  have hd : timedeltaDays (current_date - log_date) < 0 :=
    timedeltaDays_neg (by omega)
  unfold compute_recency_score
  apply clamp01_of_one_le
  rw [Real.one_le_exp_iff]
  have : (timedeltaDays (current_date - log_date) : ℝ) < 0 := by exact_mod_cast hd
  linarith

/-- Witness for C10 at a concrete input: a log one day in the future of
reference time 0 scores exactly 1. -/
theorem recency_future_entries_score_one_witness :
    compute_recency_score 86400 0 = 1 :=
  recency_future_entries_score_one 86400 0 (by decide)

/-- C2 counterexample: the recency score is not symmetric in time
direction. Thirty days in the past scores `exp (-1) < 1`, while thirty
days in the future is clamped to 1. -/
theorem recency_not_symmetric_counterexample :
    compute_recency_score (-2592000) 0 ≠ compute_recency_score 2592000 0 := by
  have hpast : compute_recency_score (-2592000) 0 = Real.exp (-1) := by
    have h : timedeltaDays ((0 : ℤ) - -2592000) = 30 := by decide
    rw [recency_eq_exp_of_nonneg (by rw [h]; norm_num), h]
    norm_num
  have hfut : compute_recency_score 2592000 0 = 1 :=
    recency_future_entries_score_one 2592000 0 (by decide)
  rw [hpast, hfut]
  have : Real.exp (-1) < 1 := Real.exp_lt_one_iff.mpr (by norm_num)
  linarith

/-- C2 amended: `recency (t, t) = 1`, and the score strictly decreases
as the day difference grows over the non-future range (`days_diff ≥ 0`);
symmetry in time direction fails (future entries are clamped to 1, see
the counterexample and C10). -/
theorem recency_decay_properties :
    (∀ t : ℤ, compute_recency_score t t = 1) ∧
    (∀ now t1 t2 : ℤ, 0 ≤ timedeltaDays (now - t1) →
      timedeltaDays (now - t1) < timedeltaDays (now - t2) →
      compute_recency_score t2 now < compute_recency_score t1 now) := by
  constructor
  · intro t
    have h : timedeltaDays (t - t) = 0 := by
      simp [timedeltaDays, Int.fdiv]
    unfold compute_recency_score
    rw [h]
    norm_num [Real.exp_zero, clamp01_of_one_le le_rfl]
  · intro now t1 t2 h1 h2
    rw [recency_eq_exp_of_nonneg h1, recency_eq_exp_of_nonneg (le_of_lt (lt_of_le_of_lt h1 h2))]
    rw [Real.exp_lt_exp]
    have : (timedeltaDays (now - t1) : ℝ) < (timedeltaDays (now - t2) : ℝ) := by
      exact_mod_cast h2
    linarith

/-- Witness for the amended C2 at concrete inputs: an entry ten days in
the past scores strictly below an entry at the reference time, and
`recency (t, t) = 1` at `t = 0`. -/
theorem recency_decay_properties_witness :
    compute_recency_score 0 0 = 1 ∧
    compute_recency_score (-864000) 0 < compute_recency_score 0 0 :=
  ⟨recency_decay_properties.1 0,
   recency_decay_properties.2 0 0 (-864000) (by decide) (by decide)⟩

/-- The four relevance weights held in `MemoryAnalyzer.relevance_weights`.
The dict always carries exactly the keys `recency`, `frequency`,
`similarity`, `importance`: validation rejects any other key before the
dict is mutated, so a fixed record is a faithful model. -/
structure RelevanceWeights where
  recency : ℚ
  frequency : ℚ
  similarity : ℚ
  importance : ℚ
deriving DecidableEq, Repr

/-- Default weights set in `MemoryAnalyzer.__init__`. -/
def defaultRelevanceWeights : RelevanceWeights :=
  { recency := 3/10, frequency := 2/10, similarity := 4/10, importance := 1/10 }

/-- The key set of `self.relevance_weights`. -/
def relevanceWeightKeys : List String :=
  ["recency", "frequency", "similarity", "importance"]

/-- Single-key assignment into the fixed-key weight dict. -/
def setWeight (w : RelevanceWeights) (key : String) (v : ℚ) : RelevanceWeights :=
  if key = "recency" then { w with recency := v }
  else if key = "frequency" then { w with frequency := v }
  else if key = "similarity" then { w with similarity := v }
  else if key = "importance" then { w with importance := v }
  else w

/-- `self.relevance_weights.update(new_weights)`: assignments applied in
iteration order. -/
def applyWeightUpdates (w : RelevanceWeights) (u : List (String × ℚ)) : RelevanceWeights :=
  u.foldl (fun acc p => setWeight acc p.1 p.2) w

/-- `sum(self.relevance_weights.values())`. -/
def sumWeights (w : RelevanceWeights) : ℚ :=
  w.recency + w.frequency + w.similarity + w.importance

/-- `MemoryAnalyzer.update_relevance_weights`: every key of the update
map is validated first (`ValueError` on the first unknown key, before
any mutation); then the updates are merged and, only when the merged
total is strictly positive, each weight is divided by the total. -/
def update_relevance_weights (w : RelevanceWeights) (new_weights : List (String × ℚ)) :
    Except String RelevanceWeights :=
  match new_weights.find? (fun p => !(relevanceWeightKeys.contains p.1)) with
  | some p => Except.error ("Invalid weight key: " ++ p.1)
  | none =>
      let merged := applyWeightUpdates w new_weights
      let total := sumWeights merged
      if 0 < total then
        Except.ok { recency := merged.recency / total,
                    frequency := merged.frequency / total,
                    similarity := merged.similarity / total,
                    importance := merged.importance / total }
      else
        Except.ok merged

/-- C3 counterexample: setting all four weights to 0 returns without
error, yet the resulting weights sum to 0, not 1 (the renormalization
guard `total_weight > 0` is skipped). -/
theorem update_weights_sum_counterexample :
    update_relevance_weights defaultRelevanceWeights
        [("recency", 0), ("frequency", 0), ("similarity", 0), ("importance", 0)] =
      Except.ok { recency := 0, frequency := 0, similarity := 0, importance := 0 } ∧
    sumWeights { recency := 0, frequency := 0, similarity := 0, importance := 0 } ≠ 1 := by
  constructor
  · simp [update_relevance_weights, relevanceWeightKeys, List.find?, applyWeightUpdates,
      setWeight, sumWeights, defaultRelevanceWeights]
  · norm_num [sumWeights]

/-- C3 amended: whenever `update_relevance_weights` returns without
error and the merged weights have strictly positive total, the four
resulting weights sum exactly to 1. -/
theorem update_weights_normalised_sum (w : RelevanceWeights) (u : List (String × ℚ))
    (w2 : RelevanceWeights)
    (hok : update_relevance_weights w u = Except.ok w2)
    (hpos : 0 < sumWeights (applyWeightUpdates w u)) :
    sumWeights w2 = 1 := by
  unfold update_relevance_weights at hok
  cases hfind : u.find? (fun p => !(relevanceWeightKeys.contains p.1)) with
  | some p => rw [hfind] at hok; exact absurd hok (by simp)
  | none =>
      rw [hfind, if_pos hpos] at hok
      have hw2 := (Except.ok.injEq _ _).mp hok
      rw [← hw2]
      unfold sumWeights at hpos ⊢
      field_simp

/-- Witness for the amended C3 at a concrete input: updating only the
recency weight to 1/2 renormalizes the weights to sum 1. -/
theorem update_weights_normalised_sum_witness :
    sumWeights { recency := 5/12, frequency := 1/6, similarity := 1/3,
                 importance := 1/12 } = 1 :=
  update_weights_normalised_sum defaultRelevanceWeights [("recency", 1/2)]
    { recency := 5/12, frequency := 1/6, similarity := 1/3, importance := 1/12 }
    (by
      simp [update_relevance_weights, relevanceWeightKeys, List.find?, applyWeightUpdates,
        setWeight, sumWeights, defaultRelevanceWeights]
      norm_num)
    (by
      simp [applyWeightUpdates, setWeight, sumWeights, defaultRelevanceWeights]
      norm_num)

/-- C7: an update map containing any key outside the four valid keys is
rejected with the `Invalid weight key` error naming an offending key;
no merge and no renormalization takes place, so the caller's weight
state is exactly as before the call. -/
theorem update_weights_rejects_unknown_key (w : RelevanceWeights)
    (u : List (String × ℚ)) (p : String × ℚ) (hp : p ∈ u)
    (hkey : p.1 ∉ relevanceWeightKeys) :
    ∃ bad, bad ∉ relevanceWeightKeys ∧
      update_relevance_weights w u = Except.error ("Invalid weight key: " ++ bad) := by
  have hsome : (u.find? (fun q => !(relevanceWeightKeys.contains q.1))).isSome := by
    rw [List.find?_isSome]
    exact ⟨p, hp, by simpa using hkey⟩
  obtain ⟨q, hq⟩ := Option.isSome_iff_exists.mp hsome
  refine ⟨q.1, ?_, ?_⟩
  · have := List.find?_some hq
    simpa using this
  · unfold update_relevance_weights
    rw [hq]

/-- Witness for C7 at a concrete input: the key `mood` is rejected. -/
theorem update_weights_rejects_unknown_key_witness :
    ∃ bad, bad ∉ relevanceWeightKeys ∧
      update_relevance_weights defaultRelevanceWeights [("mood", 1)] =
        Except.error ("Invalid weight key: " ++ bad) :=
  update_weights_rejects_unknown_key defaultRelevanceWeights [("mood", 1)]
    ("mood", 1) (by simp) (by decide)

/-- A log entry as consumed by the scoring code: `id`, `content`,
`start_time` (an ISO-8601 timestamp, modelled already parsed to integer
seconds) and the optional `importance` field read by
`log.get('importance', 0.5)`. -/
structure LogEntry where
  id : String
  content : String
  start_time : ℤ
  importance : Option ℚ
deriving DecidableEq, Repr

/-- Python `text.lower().split()` turned into a set: lower-case, split
on whitespace runs (empty fragments dropped), duplicates removed. -/
def wordSet (s : String) : List String :=
  ((s.toLower.split Char.isWhitespace).filter (fun w => w ≠ "")).dedup

/-- `MemoryAnalyzer.compute_similarity_score` on the fallback path (no
embedding provider configured): Jaccard similarity of the lower-cased
word sets, 0 when either set is empty. -/
def compute_similarity_score (log_content query_content : String) : ℚ :=
  let log_words := wordSet log_content
  let query_words := wordSet query_content
  if log_words = [] ∨ query_words = [] then 0
  else
    let intersection : ℕ := (log_words.filter (fun w => w ∈ query_words)).length
    let union : ℕ := ((log_words ++ query_words).dedup).length
    if 0 < union then (intersection : ℚ) / (union : ℚ) else 0

/-- `logs_access_frequency.get(log_id, 0)`. -/
def dictGetNat (freq : List (String × ℕ)) (k : String) : ℕ :=
  (freq.lookup k).getD 0

/-- `max(logs_access_frequency.values()) if logs_access_frequency else 1`. -/
def maxAccess (freq : List (String × ℕ)) : ℕ :=
  match freq with
  | [] => 1
  | _ => (freq.map Prod.snd).foldl max 0

/-- `MemoryAnalyzer.compute_memory_relevance`: the weighted combination
of recency, similarity, access-frequency and importance scores, clamped
to `[0, 1]`. The frequency score divides the access count by
`max_access` only when `max_access > 0`, else contributes 0. -/
noncomputable def compute_memory_relevance (w : RelevanceWeights) (log : LogEntry)
    (query : String) (logs_access_frequency : List (String × ℕ)) (current_date : ℤ) : ℝ :=
  let log_importance : ℚ := log.importance.getD (1/2)
  let recency_score : ℝ := compute_recency_score log.start_time current_date
  let similarity_score : ℚ := compute_similarity_score log.content query
  let max_access : ℕ := maxAccess logs_access_frequency
  let frequency_score : ℚ :=
    if 0 < max_access then (dictGetNat logs_access_frequency log.id : ℚ) / (max_access : ℚ)
    else 0
  clamp01 ((w.recency : ℝ) * recency_score +
    (w.similarity : ℝ) * (similarity_score : ℝ) +
    (w.frequency : ℝ) * (frequency_score : ℝ) +
    (w.importance : ℝ) * (log_importance : ℝ))

/-- The relevance formula exactly as the specification states it:
`w.recency * recency + w.similarity * similarity + w.frequency *
(accessFrequencyMap[entry.id] / max(values, default=1)) + w.importance *
entry.importance`, clamped to `[0, 1]`; an absent id reads as 0 and
division follows the real-number convention `x / 0 = 0`. -/
noncomputable def specRelevanceFormula (w : RelevanceWeights) (log : LogEntry)
    (query : String) (accessFrequencyMap : List (String × ℕ)) (now : ℤ) : ℝ :=
  clamp01 ((w.recency : ℝ) * compute_recency_score log.start_time now +
    (w.similarity : ℝ) * ((compute_similarity_score log.content query : ℚ) : ℝ) +
    (w.frequency : ℝ) *
      ((dictGetNat accessFrequencyMap log.id : ℝ) / (maxAccess accessFrequencyMap : ℝ)) +
    (w.importance : ℝ) * ((log.importance.getD (1/2) : ℚ) : ℝ))

/-- C1: for every log, query, access-frequency map and current date,
`compute_memory_relevance` returns exactly the specification's weighted
formula clamped to `[0, 1]`, with an id absent from the frequency map
contributing a frequency score of 0. -/
theorem memory_relevance_matches_spec_formula (w : RelevanceWeights) (log : LogEntry)
    (query : String) (freq : List (String × ℕ)) (now : ℤ) :
    compute_memory_relevance w log query freq now = specRelevanceFormula w log query freq now := by
  unfold compute_memory_relevance specRelevanceFormula
  dsimp only
  congr 2
  by_cases h : 0 < maxAccess freq
  · rw [if_pos h]
    push_cast
    ring
  · rw [if_neg h]
    rw [Nat.eq_zero_of_not_pos h]
    push_cast
    norm_num

/-- Insert-or-overwrite into a Python dict modelled as an association
list: an existing key keeps its position and receives the new value; a
new key is appended at the end (CPython dict semantics). -/
def dictInsert {α : Type} (d : List (String × α)) (k : String) (v : α) : List (String × α) :=
  if d.any (fun p => p.1 = k) then d.map (fun p => if p.1 = k then (k, v) else p)
  else d ++ [(k, v)]

/-- Build a dict by inserting the pairs in order. -/
def buildDict {α : Type} (pairs : List (String × α)) : List (String × α) :=
  pairs.foldl (fun d p => dictInsert d p.1 p.2) []

/-- The window test of `generate_temporal_connections`:
`(t_later - t_earlier).days <= time_window_days`. -/
def withinWindow (time_window_days t_later t_earlier : ℤ) : Bool :=
  decide (timedeltaDays (t_later - t_earlier) ≤ time_window_days)

/-- One iteration of the outer loop of
`MemoryAnalyzer.generate_temporal_connections` for the entry `log`:
walk the earlier entries nearest-first (`prevRev`, the reversed prefix
of the sorted list) and the later entries in order (`next`), stopping in
each direction as soon as an entry falls outside the window. -/
def temporalRow (w : ℤ) (log : LogEntry) (prevRev next : List LogEntry) : List String :=
  ((prevRev.takeWhile (fun p => withinWindow w log.start_time p.start_time)).map
      (fun p => p.id)) ++
  ((next.takeWhile (fun p => withinWindow w p.start_time log.start_time)).map
      (fun p => p.id))

/-- The outer loop over the sorted entries, carried as a zipper whose
first component is the reversed prefix already visited. -/
def temporalRows (w : ℤ) : List LogEntry → List LogEntry → List (String × List String)
  | _, [] => []
  | prevRev, log :: rest =>
      (log.id, temporalRow w log prevRev rest) :: temporalRows w (log :: prevRev) rest

/-- `MemoryAnalyzer.generate_temporal_connections`: sort the logs by
start time, then collect each entry's backward and forward window scan
into a dict keyed by log id. (The source sorts the ISO-8601 timestamp
strings lexicographically, which orders them chronologically; the model
sorts by the parsed timestamps directly.) Default window: 3 days. -/
def generate_temporal_connections (logs : List LogEntry) (time_window_days : ℤ := 3) :
    List (String × List String) :=
  let sorted_logs := logs.mergeSort (fun a b => decide (a.start_time ≤ b.start_time))
  buildDict (temporalRows time_window_days [] sorted_logs)

/-- The naive full-pairwise connection predicate of the claim: two
entries are connected iff the absolute day difference of their start
times is at most the window. -/
def temporallyClose (w : ℤ) (a b : LogEntry) : Prop :=
  timedeltaDays |a.start_time - b.start_time| ≤ w

/-- Membership in `takeWhile` is plain filtering when the predicate can
only switch from true to false along the list. -/
lemma mem_takeWhile_iff {α : Type} {p : α → Bool} {l : List α}
    (h : l.Pairwise (fun x y => p y = true → p x = true)) {x : α} :
    x ∈ l.takeWhile p ↔ x ∈ l ∧ p x = true := by
  induction l with
  | nil => simp
  | cons a t ih =>
      rw [List.pairwise_cons] at h
      cases hpa : p a with
      | true =>
          rw [List.takeWhile_cons_of_pos hpa]
          simp only [List.mem_cons]
          constructor
          · rintro (rfl | hx)
            · exact ⟨Or.inl rfl, hpa⟩
            · have := (ih h.2).mp hx
              exact ⟨Or.inr this.1, this.2⟩
          · rintro ⟨rfl | hx, hpx⟩
            · exact Or.inl rfl
            · exact Or.inr ((ih h.2).mpr ⟨hx, hpx⟩)
      | false =>
          rw [List.takeWhile_cons_of_neg (by simp [hpa])]
          simp only [List.not_mem_nil, false_iff, not_and]
          intro hx
          rcases List.mem_cons.mp hx with rfl | hx
          · intro hpx; rw [hpa] at hpx; exact Bool.noConfusion hpx
          · intro hpx
            have := h.1 x hx hpx
            rw [hpa] at this
            exact Bool.noConfusion this

/-- `dictInsert` with a fresh key appends. -/
lemma dictInsert_fresh {α : Type} {d : List (String × α)} {k : String} (v : α)
    (h : k ∉ d.map Prod.fst) : dictInsert d k v = d ++ [(k, v)] := by
  unfold dictInsert
  rw [if_neg]
  intro hc
  rw [List.any_eq_true] at hc
  obtain ⟨p, hp, hpk⟩ := hc
  exact h (List.mem_map.mpr ⟨p, hp, by simpa using hpk⟩)

/-- Building a dict from pairs with pairwise-distinct keys is the
identity. -/
lemma buildDict_of_nodup_keys {α : Type} (pairs : List (String × α))
    (h : (pairs.map Prod.fst).Nodup) : buildDict pairs = pairs := by
  suffices H : ∀ (ps : List (String × α)) (acc : List (String × α)),
      ((acc ++ ps).map Prod.fst).Nodup →
      ps.foldl (fun d p => dictInsert d p.1 p.2) acc = acc ++ ps by
    simpa using H pairs [] (by simpa using h)
  intro ps
  induction ps with
  | nil => intro acc _; simp
  | cons p t ih =>
      intro acc hacc
      have hfresh : p.1 ∉ acc.map Prod.fst := by
        rw [List.map_append] at hacc
        have hdisj := (List.nodup_append.mp hacc).2.2
        intro hmem
        exact hdisj hmem (by simp)
      rw [List.foldl_cons, dictInsert_fresh p.2 hfresh]
      have := ih (acc ++ [p]) (by simpa using hacc)
      rw [this]
      simp

/-- The keys of the scan output are the ids of the scanned entries. -/
lemma temporalRows_keys (w : ℤ) :
    ∀ (prevRev rest : List LogEntry),
      (temporalRows w prevRev rest).map Prod.fst = rest.map LogEntry.id
  | _, [] => rfl
  | prevRev, log :: rest => by
      simp [temporalRows, temporalRows_keys w (log :: prevRev) rest]

/-- Zipper invariant for the double scan of
`generate_temporal_connections`: while walking the time-sorted list with
the visited prefix reversed in `prevRev`, the looked-up row of an entry
`a` still to be visited contains exactly the ids of the other entries of
the context within the day window of `a`. -/
lemma temporalRows_lookup_iff (w : ℤ) (a b : LogEntry) :
    ∀ (prevRev rest : List LogEntry),
      (prevRev.reverse ++ rest).Pairwise (fun x y => x.start_time ≤ y.start_time) →
      ((prevRev.reverse ++ rest).map LogEntry.id).Nodup →
      a ∈ rest → b ∈ prevRev.reverse ++ rest →
      (b.id ∈ (((temporalRows w prevRev rest).lookup a.id).getD []) ↔
        (a ≠ b ∧ temporallyClose w a b)) := by
  intro prevRev rest
  induction rest generalizing prevRev with
  | nil => intro _ _ ha _; exact absurd ha (List.not_mem_nil a)
  | cons log rest2 ih =>
      intro hsort hnod ha hb
      have hinj := List.inj_on_of_nodup_map hnod
      by_cases hal : a = log
      · subst hal
        have hlook : ((temporalRows w prevRev (a :: rest2)).lookup a.id).getD [] =
            temporalRow w a prevRev rest2 := by
          simp [temporalRows, List.lookup_cons]
        rw [hlook]
        -- order facts extracted from sortedness of the context
        have hctxnd : (prevRev.reverse ++ a :: rest2).Nodup := List.Nodup.of_map _ hnod
        have hdisj2 : (prevRev.reverse).Disjoint (a :: rest2) :=
          (List.nodup_append.mp hctxnd).2.2
        have hconsnd : (a :: rest2).Nodup := (List.nodup_append.mp hctxnd).2.1
        have hsplit := List.pairwise_append.mp hsort
        have hPrevLe : ∀ x ∈ prevRev, x.start_time ≤ a.start_time := fun x hx =>
          hsplit.2.2 x (List.mem_reverse.mpr hx) a (List.mem_cons_self a rest2)
        have hRestGe : ∀ y ∈ rest2, a.start_time ≤ y.start_time :=
          (List.pairwise_cons.mp hsplit.2.1).1
        have hPrevDesc : prevRev.Pairwise (fun x y => y.start_time ≤ x.start_time) :=
          List.pairwise_reverse.mp hsplit.1
        have hRestAsc : rest2.Pairwise (fun x y => x.start_time ≤ y.start_time) :=
          (List.pairwise_cons.mp hsplit.2.1).2
        -- membership in the backward scan
        have hback : ∀ x, x ∈ prevRev.takeWhile
              (fun p => withinWindow w a.start_time p.start_time) ↔
            x ∈ prevRev ∧ withinWindow w a.start_time x.start_time = true := by
          intro x
          apply mem_takeWhile_iff
          apply hPrevDesc.imp
          intro u v huv hv
          rw [withinWindow, decide_eq_true_iff] at hv ⊢
          exact le_trans (timedeltaDays_mono (by omega)) hv
        -- membership in the forward scan
        have hfwd : ∀ x, x ∈ rest2.takeWhile
              (fun p => withinWindow w p.start_time a.start_time) ↔
            x ∈ rest2 ∧ withinWindow w x.start_time a.start_time = true := by
          intro x
          apply mem_takeWhile_iff
          apply hRestAsc.imp
          intro u v huv hv
          rw [withinWindow, decide_eq_true_iff] at hv ⊢
          exact le_trans (timedeltaDays_mono (by omega)) hv
        unfold temporalRow
        rw [List.mem_append]
        constructor
        · rintro (hmem | hmem)
          · obtain ⟨x, hx, hxid⟩ := List.mem_map.mp hmem
            rw [hback] at hx
            have hxctx : x ∈ prevRev.reverse ++ a :: rest2 :=
              List.mem_append.mpr (Or.inl (List.mem_reverse.mpr hx.1))
            have hxb : x = b := hinj hxctx hb hxid
            subst hxb
            have hxa : x ≠ a := fun hcontra =>
              hdisj2 (List.mem_reverse.mpr (hcontra ▸ hx.1)) (List.mem_cons_self a rest2)
            refine ⟨fun hab => hxa hab.symm, ?_⟩
            have hle := hPrevLe x hx.1
            have := hx.2
            rw [withinWindow, decide_eq_true_iff] at this
            unfold temporallyClose
            rwa [abs_of_nonneg (by omega)]
          · obtain ⟨x, hx, hxid⟩ := List.mem_map.mp hmem
            rw [hfwd] at hx
            have hxctx : x ∈ prevRev.reverse ++ a :: rest2 :=
              List.mem_append.mpr (Or.inr (List.mem_cons_of_mem a hx.1))
            have hxb : x = b := hinj hxctx hb hxid
            subst hxb
            have hxa : x ≠ a := fun hcontra =>
              (List.nodup_cons.mp hconsnd).1 (hcontra ▸ hx.1)
            refine ⟨fun hab => hxa hab.symm, ?_⟩
            have hle := hRestGe x hx.1
            have := hx.2
            rw [withinWindow, decide_eq_true_iff] at this
            unfold temporallyClose
            rwa [abs_of_nonpos (by omega), neg_sub]
        · rintro ⟨hab, hclose⟩
          unfold temporallyClose at hclose
          rcases List.mem_append.mp hb with hbl | hbr
          · left
            apply List.mem_map_of_mem
            rw [hback]
            have hbp : b ∈ prevRev := List.mem_reverse.mp hbl
            refine ⟨hbp, ?_⟩
            rw [withinWindow, decide_eq_true_iff]
            have hle := hPrevLe b hbp
            rwa [abs_of_nonneg (by omega)] at hclose
          · rcases List.mem_cons.mp hbr with hba | hbr2
            · exact absurd hba.symm hab
            · right
              apply List.mem_map_of_mem
              rw [hfwd]
              refine ⟨hbr2, ?_⟩
              rw [withinWindow, decide_eq_true_iff]
              have hle := hRestGe b hbr2
              rwa [abs_of_nonpos (by omega), neg_sub] at hclose
      · have ha2 : a ∈ rest2 := by
          rcases List.mem_cons.mp ha with h | h
          · exact absurd h hal
          · exact h
        have hne : (a.id == log.id) = false := by
          rw [beq_eq_false_iff_ne]
          intro hcontra
          exact hal (hinj (List.mem_append.mpr (Or.inr ha))
            (List.mem_append.mpr (Or.inr (List.mem_cons_self log rest2))) hcontra)
        have hstep : ((temporalRows w prevRev (log :: rest2)).lookup a.id) =
            ((temporalRows w (log :: prevRev) rest2).lookup a.id) := by
          simp [temporalRows, List.lookup_cons, hne]
        rw [hstep]
        have hctx : (log :: prevRev).reverse ++ rest2 = prevRev.reverse ++ log :: rest2 := by
          simp
        apply ih (log :: prevRev) (by rw [hctx]; exact hsort) (by rw [hctx]; exact hnod)
          ha2 (by rw [hctx]; exact hb)

/-- C5: for every list of logs with pairwise-distinct ids, the outward
sliding-window scan with monotonic short-circuit of
`generate_temporal_connections` agrees with the naive full-pairwise
definition: entry `b` appears in entry `a`'s connection list iff the
entries are distinct and the absolute day difference of their start
times is at most the window. -/
theorem temporal_connections_match_pairwise (logs : List LogEntry) (w : ℤ)
    (hids : (logs.map LogEntry.id).Nodup) (a b : LogEntry)
    (ha : a ∈ logs) (hb : b ∈ logs) :
    b.id ∈ (((generate_temporal_connections logs w).lookup a.id).getD []) ↔
      (a ≠ b ∧ temporallyClose w a b) := by
  unfold generate_temporal_connections
  have hperm : (logs.mergeSort (fun x y => decide (x.start_time ≤ y.start_time))).Perm logs :=
    List.mergeSort_perm logs _
  have hsids : ((logs.mergeSort
      (fun x y => decide (x.start_time ≤ y.start_time))).map LogEntry.id).Nodup :=
    ((hperm.map LogEntry.id).nodup_iff).mpr hids
  rw [buildDict_of_nodup_keys _ (by rw [temporalRows_keys]; exact hsids)]
  have htrans : ∀ (u v t : LogEntry),
      (fun x y : LogEntry => decide (x.start_time ≤ y.start_time)) u v = true →
      (fun x y : LogEntry => decide (x.start_time ≤ y.start_time)) v t = true →
      (fun x y : LogEntry => decide (x.start_time ≤ y.start_time)) u t = true := by
    intro u v t hu hv
    rw [decide_eq_true_iff] at hu hv ⊢
    omega
  have htotal : ∀ (u v : LogEntry),
      ((fun x y : LogEntry => decide (x.start_time ≤ y.start_time)) u v ||
       (fun x y : LogEntry => decide (x.start_time ≤ y.start_time)) v u) = true := by
    intro u v
    rcases le_total u.start_time v.start_time with h | h
    · simp [h]
    · simp [h]
  have hsorted : (logs.mergeSort (fun x y => decide (x.start_time ≤ y.start_time))).Pairwise
      (fun x y => x.start_time ≤ y.start_time) :=
    (@List.sorted_mergeSort LogEntry
      (fun x y => decide (x.start_time ≤ y.start_time)) htrans htotal logs).imp
      (fun h => of_decide_eq_true h)
  exact temporalRows_lookup_iff w a b []
    (logs.mergeSort (fun x y => decide (x.start_time ≤ y.start_time)))
    hsorted hsids (hperm.mem_iff.mpr ha) (hperm.mem_iff.mpr hb)

/-- Witness for C5: the scenario from the specification. Two entries one
day apart with window 3 each list the other. -/
theorem temporal_connections_match_pairwise_witness :
    ("b" : String) ∈ (((generate_temporal_connections
        [⟨"a", "meeting with Alex", 0, none⟩,
         ⟨"b", "meeting with Alex follow up", 86400, none⟩] 3).lookup "a").getD []) ∧
    ("a" : String) ∈ (((generate_temporal_connections
        [⟨"a", "meeting with Alex", 0, none⟩,
         ⟨"b", "meeting with Alex follow up", 86400, none⟩] 3).lookup "b").getD []) :=
  ⟨(temporal_connections_match_pairwise
      [⟨"a", "meeting with Alex", 0, none⟩, ⟨"b", "meeting with Alex follow up", 86400, none⟩]
      3 (by decide) ⟨"a", "meeting with Alex", 0, none⟩
      ⟨"b", "meeting with Alex follow up", 86400, none⟩ (by decide) (by decide)).mpr
      ⟨by decide, by unfold temporallyClose; decide⟩,
   (temporal_connections_match_pairwise
      [⟨"a", "meeting with Alex", 0, none⟩, ⟨"b", "meeting with Alex follow up", 86400, none⟩]
      3 (by decide) ⟨"b", "meeting with Alex follow up", 86400, none⟩
      ⟨"a", "meeting with Alex", 0, none⟩ (by decide) (by decide)).mpr
      ⟨by decide, by unfold temporallyClose; decide⟩⟩

/-- The fixed fallback vocabulary of `MemoryModel._get_simple_embedding`
(written as a Python set literal; the model enumerates the coordinates
in source order, the Python set iteration order is
implementation-defined but the claims only depend on the length). -/
def fallbackVocab : List String :=
  ["meeting", "task", "project", "deadline", "call", "email", "report",
   "presentation", "work", "home", "family", "friend", "lunch", "dinner",
   "morning", "afternoon", "evening", "night", "today", "tomorrow",
   "yesterday", "week", "month", "year", "important", "urgent", "reminder"]

/-- `np.linalg.norm`: the L2 norm of a vector. -/
noncomputable def l2norm (v : List ℝ) : ℝ :=
  Real.sqrt ((v.map (fun x => x * x)).sum)

/-- `np.dot` on two 1-D arrays: sum of coordinatewise products. -/
noncomputable def dotList (a b : List ℝ) : ℝ :=
  (List.zipWith (fun x y => x * y) a b).sum

/-- `MemoryModel._get_simple_embedding`: count vocabulary words in the
lower-cased input, L2-normalise when the norm is positive, then
zero-pad to the configured dimension or truncate to it. -/
noncomputable def get_simple_embedding (dim : ℕ) (text : String) : List ℝ :=
  let words := (text.toLower.split Char.isWhitespace).filter (fun w => w ≠ "")
  let vector : List ℝ := fallbackVocab.map (fun w => ((words.count w : ℕ) : ℝ))
  let norm := l2norm vector
  let nvector := if 0 < norm then vector.map (fun x => x / norm) else vector
  if nvector.length < dim then nvector ++ List.replicate (dim - nvector.length) 0
  else nvector.take dim

/-- `MemoryModel.get_embedding`, with the outcome of the external call
supplied as input: `some v` models an API key being configured and
`_get_openai_embedding` returning vector `v` (which the source returns
as-is, without any dimension check), `none` models a missing key or a
failed call, both of which fall back to the local embedding. The
text-keyed cache only memoises these same values and is omitted. -/
noncomputable def get_embedding (dim : ℕ) (apiResult : Option (List ℝ)) (text : String) :
    List ℝ :=
  match apiResult with
  | some v => v
  | none => get_simple_embedding dim text

/-- C6 counterexample: an externally sourced embedding of length 2
against configured dimension 1536 is returned unchanged at the wrong
length; no hard error is raised and no resize happens. -/
theorem external_embedding_wrong_length_counterexample :
    get_embedding 1536 (some [1, 2]) "x" = [1, 2] ∧
    (get_embedding 1536 (some [1, 2]) "x").length ≠ 1536 := by
  constructor
  · rfl
  · show ([(1 : ℝ), 2]).length ≠ 1536
    simp

/-- C6 amended: the zero-pad/truncate policy applies exactly to the
locally computed fallback vectors, which always come out at the
configured dimension; an externally sourced embedding is returned
unchanged whatever its length — the source performs no dimension check
on it, so a mismatched external vector is passed through at the wrong
length rather than raising a hard error. -/
theorem embedding_padding_policy (dim : ℕ) (text : String) (v : List ℝ) :
    (get_embedding dim none text).length = dim ∧ get_embedding dim (some v) text = v := by
  refine ⟨?_, rfl⟩
  show (get_simple_embedding dim text).length = dim
  unfold get_simple_embedding
  dsimp only
  by_cases h : (if 0 < l2norm (fallbackVocab.map
      (fun w => ((((text.toLower.split Char.isWhitespace).filter
        (fun u => u ≠ "")).count w : ℕ) : ℝ)))
      then (fallbackVocab.map (fun w => ((((text.toLower.split Char.isWhitespace).filter
        (fun u => u ≠ "")).count w : ℕ) : ℝ))).map
          (fun x => x / l2norm (fallbackVocab.map
            (fun w => ((((text.toLower.split Char.isWhitespace).filter
              (fun u => u ≠ "")).count w : ℕ) : ℝ))))
      else fallbackVocab.map (fun w => ((((text.toLower.split Char.isWhitespace).filter
        (fun u => u ≠ "")).count w : ℕ) : ℝ))).length < dim
  · rw [if_pos h]
    simp only [List.length_append, List.length_replicate]
    omega
  · rw [if_neg h]
    simp only [List.length_take]
    push_neg at h
    omega

/-- `MemoryModel.compute_similarity`: a `ValueError` when the two shapes
differ, else cosine similarity `dot / (‖a‖ ‖b‖)`. In exact real
arithmetic the NaN guard (0/0 when both vectors are zero) coincides with
the convention `x / 0 = 0`, so the quotient expresses both branches. -/
noncomputable def compute_similarity (embed1 embed2 : List ℝ) : Except String ℝ :=
  if embed1.length = embed2.length then
    Except.ok (dotList embed1 embed2 / (l2norm embed1 * l2norm embed2))
  else
    Except.error ("Embedding dimensions do not match: " ++
      toString embed1.length ++ " vs " ++ toString embed2.length)

/-- `memory_graph[log_id].sort(key=..., reverse=True)`: stable sort of an
edge list, descending by similarity. -/
noncomputable def sortRowDesc (row : List (String × ℝ)) : List (String × ℝ) :=
  row.mergeSort (fun x y => decide (y.2 ≤ x.2))

/-- Inner loop of `MemoryModel.build_memory_graph` for the entry at
position `i` with embedding `myEmb`: compare against every other entry
(skipping `j = i`), keep edges whose similarity reaches the threshold,
and propagate the first `ValueError` raised by `compute_similarity`
(the source has no try/except here). -/
noncomputable def buildGraphRow (threshold : ℝ) (i : ℕ) (myEmb : List ℝ)
    (entries : List (ℕ × (String × List ℝ))) : Except String (List (String × ℝ)) :=
  entries.foldlM (fun acc p =>
    if p.1 = i then pure acc
    else do
      let s ← compute_similarity myEmb p.2.2
      if threshold ≤ s then pure (acc ++ [(p.2.1, s)]) else pure acc) []

/-- `MemoryModel.build_memory_graph`: embed every log into a dict keyed
by id, then compare every pair of entries; any dimension-mismatch error
escapes the whole batch (no exception handling in this function). -/
noncomputable def build_memory_graph (embed : String → List ℝ) (logs : List LogEntry)
    (similarity_threshold : ℝ) : Except String (List (String × List (String × ℝ))) := do
  let log_embeddings := buildDict (logs.map (fun log => (log.id, embed log.content)))
  let entries := log_embeddings.enum
  let rows ← entries.foldlM (fun acc p => do
      let row ← buildGraphRow similarity_threshold p.1 p.2.2 entries
      pure (acc ++ [(p.2.1, sortRowDesc row)]))
    ([] : List (String × List (String × ℝ)))
  pure (buildDict rows)

/-- A concrete embedding assignment with mismatched dimensions. -/
def mismatchedEmbed : String → List ℝ :=
  fun text => if text = "x" then [1] else [1, 1]

/-- C4 counterexample: with two entries whose embeddings have lengths 1
and 2, `build_memory_graph` does not skip the bad pair and return a
graph — the `ValueError` from `compute_similarity` propagates and the
whole batch fails. -/
theorem build_graph_mismatch_counterexample :
    build_memory_graph mismatchedEmbed
        [⟨"1", "x", 0, none⟩, ⟨"2", "y", 0, none⟩] (7/10) =
      Except.error ("Embedding dimensions do not match: " ++
        toString (1 : ℕ) ++ " vs " ++ toString (2 : ℕ)) := by
  rfl

lemma exceptBind_error {α β : Type} (e : String) (f : α → Except String β) :
    (Except.error e : Except String α) >>= f = Except.error e := rfl

lemma exceptBind_ok {α β : Type} (v : α) (f : α → Except String β) :
    (Except.ok v : Except String α) >>= f = f v := rfl

lemma exceptPure_eq_ok {α : Type} (v : α) : (pure v : Except String α) = Except.ok v := rfl

/-- If the inner comparison loop of `build_memory_graph` succeeds, every
embedding it compared against matched the length of the row's own
embedding. -/
lemma buildGraphRow_ok_lengths (θ : ℝ) (i : ℕ) (myEmb : List ℝ) :
    ∀ (entries : List (ℕ × (String × List ℝ))) (acc r : List (String × ℝ)),
      entries.foldlM (fun acc p =>
        if p.1 = i then pure acc
        else do
          let s ← compute_similarity myEmb p.2.2
          if θ ≤ s then pure (acc ++ [(p.2.1, s)]) else pure acc) acc = Except.ok r →
      ∀ p ∈ entries, p.1 ≠ i → myEmb.length = p.2.2.length := by
  intro entries
  induction entries with
  | nil => intro acc r _ p hp; exact absurd hp (List.not_mem_nil p)
  | cons q rest ih =>
      intro acc r h p hp hpi
      rw [List.foldlM_cons] at h
      by_cases hqi : q.1 = i
      · rw [if_pos hqi, exceptPure_eq_ok, exceptBind_ok] at h
        rcases List.mem_cons.mp hp with rfl | hp2
        · exact absurd hqi hpi
        · exact ih acc r h p hp2 hpi
      · rw [if_neg hqi] at h
        cases hsim : compute_similarity myEmb q.2.2 with
        | error e =>
            rw [show ((do
                let s ← compute_similarity myEmb q.2.2
                if θ ≤ s then pure (acc ++ [(q.2.1, s)]) else pure acc) :
                  Except String (List (String × ℝ))) =
              compute_similarity myEmb q.2.2 >>= (fun s =>
                if θ ≤ s then pure (acc ++ [(q.2.1, s)]) else pure acc) from rfl,
              hsim, exceptBind_error, exceptBind_error] at h
            exact Except.noConfusion h
        | ok s =>
            have hlen : myEmb.length = q.2.2.length := by
              by_contra hne
              unfold compute_similarity at hsim
              rw [if_neg hne] at hsim
              exact Except.noConfusion hsim
            rcases List.mem_cons.mp hp with rfl | hp2
            · exact hlen
            · rw [show ((do
                  let s ← compute_similarity myEmb q.2.2
                  if θ ≤ s then pure (acc ++ [(q.2.1, s)]) else pure acc) :
                    Except String (List (String × ℝ))) =
                compute_similarity myEmb q.2.2 >>= (fun s =>
                  if θ ≤ s then pure (acc ++ [(q.2.1, s)]) else pure acc) from rfl,
                hsim, exceptBind_ok] at h
              by_cases hth : θ ≤ s
              · rw [if_pos hth, exceptPure_eq_ok, exceptBind_ok] at h
                exact ih _ r h p hp2 hpi
              · rw [if_neg hth, exceptPure_eq_ok, exceptBind_ok] at h
                exact ih _ r h p hp2 hpi

/-- If the outer loop of `build_memory_graph` succeeds, every row's
inner loop succeeded. -/
lemma buildGraph_fold_ok (θ : ℝ) (E : List (ℕ × (String × List ℝ))) :
    ∀ (l : List (ℕ × (String × List ℝ))) (acc r : List (String × List (String × ℝ))),
      l.foldlM (fun acc p => do
          let row ← buildGraphRow θ p.1 p.2.2 E
          pure (acc ++ [(p.2.1, sortRowDesc row)])) acc = Except.ok r →
      ∀ p ∈ l, ∃ row, buildGraphRow θ p.1 p.2.2 E = Except.ok row := by
  intro l
  induction l with
  | nil => intro acc r _ p hp; exact absurd hp (List.not_mem_nil p)
  | cons q rest ih =>
      intro acc r h p hp
      rw [List.foldlM_cons] at h
      cases hrow : buildGraphRow θ q.1 q.2.2 E with
      | error e =>
          rw [show ((do
              let row ← buildGraphRow θ q.1 q.2.2 E
              pure (acc ++ [(q.2.1, sortRowDesc row)])) :
                Except String (List (String × List (String × ℝ)))) =
            buildGraphRow θ q.1 q.2.2 E >>= (fun row =>
              pure (acc ++ [(q.2.1, sortRowDesc row)])) from rfl,
            hrow, exceptBind_error, exceptBind_error] at h
          exact Except.noConfusion h
      | ok row =>
          rcases List.mem_cons.mp hp with rfl | hp2
          · exact ⟨row, hrow⟩
          · rw [show ((do
                let row ← buildGraphRow θ q.1 q.2.2 E
                pure (acc ++ [(q.2.1, sortRowDesc row)])) :
                  Except String (List (String × List (String × ℝ)))) =
              buildGraphRow θ q.1 q.2.2 E >>= (fun row =>
                pure (acc ++ [(q.2.1, sortRowDesc row)])) from rfl,
              hrow, exceptBind_ok, exceptPure_eq_ok, exceptBind_ok] at h
            exact ih _ r h p hp2

/-- C4 amended: the `ShapeMismatch` is fatal to the whole batch, not
just the single comparison: whenever two distinct entries of an
id-distinct corpus have embeddings of different lengths,
`build_memory_graph` propagates the error and returns no graph (the
source wraps no try/except around `compute_similarity`). -/
theorem build_graph_mismatch_aborts_batch (embed : String → List ℝ)
    (logs : List LogEntry) (θ : ℝ) (a b : LogEntry)
    (hids : (logs.map LogEntry.id).Nodup) (ha : a ∈ logs) (hb : b ∈ logs) (hab : a ≠ b)
    (hmis : (embed a.content).length ≠ (embed b.content).length) :
    ∃ msg, build_memory_graph embed logs θ = Except.error msg := by
  cases hres : build_memory_graph embed logs θ with
  | error msg => exact ⟨msg, rfl⟩
  | ok g =>
      exfalso
      unfold build_memory_graph at hres
      dsimp only at hres
      have hkeys : ((logs.map (fun (log : LogEntry) =>
          (log.id, embed log.content))).map Prod.fst).Nodup := by
        rw [List.map_map]
        simpa [Function.comp] using hids
      rw [buildDict_of_nodup_keys _ hkeys] at hres
      set E := (logs.map (fun (log : LogEntry) => (log.id, embed log.content))).enum with hE
      obtain ⟨ia, hga⟩ := List.mem_iff_get?.mp
        (List.mem_map_of_mem (fun (log : LogEntry) => (log.id, embed log.content)) ha)
      obtain ⟨ib, hgb⟩ := List.mem_iff_get?.mp
        (List.mem_map_of_mem (fun (log : LogEntry) => (log.id, embed log.content)) hb)
      have hpa : ((ia, (a.id, embed a.content)) : ℕ × (String × List ℝ)) ∈ E := by
        rw [hE]
        exact List.mem_enum_iff_get?.mpr hga
      have hpb : ((ib, (b.id, embed b.content)) : ℕ × (String × List ℝ)) ∈ E := by
        rw [hE]
        exact List.mem_enum_iff_get?.mpr hgb
      have hne : ib ≠ ia := by
        intro hcontra
        rw [hcontra] at hgb
        have hfe := Option.some.inj (hga.symm.trans hgb)
        have hidab : a.id = b.id := congrArg Prod.fst hfe
        exact hab (List.inj_on_of_nodup_map hids ha hb hidab)
      cases hfold : E.foldlM (fun acc p => do
          let row ← buildGraphRow θ p.1 p.2.2 E
          pure (acc ++ [(p.2.1, sortRowDesc row)]))
          ([] : List (String × List (String × ℝ))) with
      | error e =>
          rw [hfold, exceptBind_error] at hres
          exact Except.noConfusion hres
      | ok rows =>
          obtain ⟨row, hrowok⟩ := buildGraph_fold_ok θ E E [] rows hfold
            (ia, (a.id, embed a.content)) hpa
          unfold buildGraphRow at hrowok
          exact hmis (buildGraphRow_ok_lengths θ ia (embed a.content) E [] row hrowok
            (ib, (b.id, embed b.content)) hpb hne)

/-- Witness for the amended C4 at a concrete input: two entries with
embeddings of lengths 1 and 2 make the whole batch fail. -/
theorem build_graph_mismatch_aborts_batch_witness :
    ∃ msg, build_memory_graph mismatchedEmbed
        [⟨"1", "x", 0, none⟩, ⟨"2", "y", 0, none⟩] (7/10) = Except.error msg :=
  build_graph_mismatch_aborts_batch mismatchedEmbed
    [⟨"1", "x", 0, none⟩, ⟨"2", "y", 0, none⟩] (7/10)
    ⟨"1", "x", 0, none⟩ ⟨"2", "y", 0, none⟩
    (by decide) (by decide) (by decide) (by decide)
    (by simp [mismatchedEmbed])

/-- The unnormalised loop of `MemoryModel.get_attention_weights`: for
each log, cosine similarity of its embedding to the query embedding
blended with the exponential recency decay (`temporal_factor` weighting
the recency part); collected into a dict keyed by log id. The source
reads `datetime.now()` internally; the model takes the current time as
the `now` parameter. -/
noncomputable def raw_attention_weights (embed : String → List ℝ) (query : String)
    (logs : List LogEntry) (now : ℤ) (temporal_factor : ℝ) :
    Except String (List (String × ℝ)) := do
  let query_embedding := embed query
  let log_embeddings := buildDict (logs.map (fun (log : LogEntry) =>
    (log.id, embed log.content)))
  let pairs ← logs.mapM (fun log => do
      let similarity ← compute_similarity query_embedding
        ((log_embeddings.lookup log.id).getD [])
      let days_ago := timedeltaDays (now - log.start_time)
      let recency := Real.exp (-(days_ago : ℝ) / 30)
      pure (log.id, (1 - temporal_factor) * similarity + temporal_factor * recency))
  pure (buildDict pairs)

/-- `MemoryModel.get_attention_weights`: the attention dict, divided by
its total only when the total is strictly positive. Default
`temporal_factor` is 0.3. -/
noncomputable def get_attention_weights (embed : String → List ℝ) (query : String)
    (logs : List LogEntry) (now : ℤ) (temporal_factor : ℝ := 3/10) :
    Except String (List (String × ℝ)) := do
  let weights ← raw_attention_weights embed query logs now temporal_factor
  let total := (weights.map Prod.snd).sum
  if 0 < total then pure (weights.map (fun p => (p.1, p.2 / total)))
  else pure weights

/-- A concrete embedding assignment giving the lone log cosine
similarity -1 against the query. -/
def oppositeEmbed : String → List ℝ :=
  fun text => if text = "q" then [1] else [-1]

lemma compute_similarity_opposite : compute_similarity [(1 : ℝ)] [(-1 : ℝ)] =
    Except.ok (-1) := by
  unfold compute_similarity dotList l2norm
  norm_num [Real.sqrt_one]

/-- C8 counterexample: a nonempty log set whose only entry has cosine
similarity -1 to the query and negligible recency produces a negative
total; the guard `total_weight > 0` skips normalisation and the
returned attention weights sum to a negative value, not 1. -/
theorem attention_weights_sum_counterexample :
    get_attention_weights oppositeEmbed "q" [⟨"a", "c", 0, none⟩] 25920000 (3/10) =
      Except.ok [("a", (1 - 3/10) * (-1) + 3/10 * Real.exp (-10))] ∧
    (1 - 3/10) * (-1) + 3/10 * Real.exp (-10) ≠ (1 : ℝ) := by
  have hexp1 : Real.exp (-10) < 1 := Real.exp_lt_one_iff.mpr (by norm_num)
  have hexp0 : (0 : ℝ) < Real.exp (-10) := Real.exp_pos _
  have hraw : raw_attention_weights oppositeEmbed "q" [⟨"a", "c", 0, none⟩] 25920000 (3/10) =
      Except.ok [("a", (1 - 3/10) * (-1) + 3/10 * Real.exp (-10))] := by
    have hdays : timedeltaDays 25920000 = 300 := by decide
    unfold raw_attention_weights
    dsimp only
    simp [List.mapM, List.mapM.loop, buildDict, dictInsert, List.lookup,
      oppositeEmbed, compute_similarity_opposite, hdays]
    norm_num
  constructor
  · unfold get_attention_weights
    rw [hraw, exceptBind_ok]
    dsimp only
    rw [if_neg (by
      simp only [List.map_cons, List.map_nil, List.sum_cons, List.sum_nil, add_zero]
      push_neg
      nlinarith)]
    rfl
  · nlinarith

/-- If the per-log attention loop succeeds, the produced pairs carry the
log ids in order (stated on the accumulator form of `List.mapM`). -/
lemma mapM_loop_attention_keys (f : LogEntry → Except String (String × ℝ))
    (hf : ∀ log v, f log = Except.ok v → v.1 = log.id) :
    ∀ (logs : List LogEntry) (acc pairs : List (String × ℝ)),
      List.mapM.loop f logs acc = Except.ok pairs →
      pairs.map Prod.fst = (acc.reverse.map Prod.fst) ++ logs.map LogEntry.id := by
  intro logs
  induction logs with
  | nil =>
      intro acc pairs h
      simp only [List.mapM.loop] at h
      have : acc.reverse = pairs := Except.ok.inj h
      simp [← this]
  | cons a l ih =>
      intro acc pairs h
      simp only [List.mapM.loop] at h
      cases hfa : f a with
      | error e =>
          rw [hfa, exceptBind_error] at h
          exact Except.noConfusion h
      | ok v =>
          rw [hfa, exceptBind_ok] at h
          have := ih (v :: acc) pairs h
          rw [this]
          simp [hf a v hfa]

lemma mapM_bind_buildDict_ok {F : LogEntry → Except String (String × ℝ)}
    {logs : List LogEntry} {raw : List (String × ℝ)}
    (h : (do
        let pairs ← logs.mapM F
        pure (buildDict pairs)) = Except.ok raw) :
    ∃ pairs, List.mapM.loop F logs [] = Except.ok pairs ∧ raw = buildDict pairs := by
  cases hm : List.mapM.loop F logs [] with
  | error e =>
      rw [show (logs.mapM F) = List.mapM.loop F logs [] from rfl, hm, exceptBind_error] at h
      exact Except.noConfusion h
  | ok pairs =>
      rw [show (logs.mapM F) = List.mapM.loop F logs [] from rfl, hm, exceptBind_ok,
        exceptPure_eq_ok] at h
      exact ⟨pairs, rfl, (Except.ok.inj h).symm⟩

lemma except_bind_pure_ok {α β : Type} {x : Except String α} {g : α → β} {v : β}
    (h : (do
        let s ← x
        pure (g s)) = Except.ok v) :
    ∃ s, x = Except.ok s ∧ v = g s := by
  cases hx : x with
  | error e =>
      rw [hx, exceptBind_error] at h
      exact Except.noConfusion h
  | ok s =>
      rw [hx, exceptBind_ok, exceptPure_eq_ok] at h
      exact ⟨s, rfl, (Except.ok.inj h).symm⟩

/-- C8 amended: for every log list with pairwise-distinct ids whose
unnormalised attention total is strictly positive, the returned
attention distribution assigns a float to exactly the log ids and those
floats sum exactly to 1; when the total is not positive (possible,
since cosine similarity may be negative) the unnormalised map is
returned instead. -/
theorem attention_weights_normalised_sum (embed : String → List ℝ) (query : String)
    (logs : List LogEntry) (now : ℤ) (tf : ℝ) (raw : List (String × ℝ))
    (hids : (logs.map LogEntry.id).Nodup)
    (hraw : raw_attention_weights embed query logs now tf = Except.ok raw)
    (hpos : 0 < (raw.map Prod.snd).sum) :
    ∃ res, get_attention_weights embed query logs now tf = Except.ok res ∧
      res.map Prod.fst = logs.map LogEntry.id ∧
      (res.map Prod.snd).sum = 1 := by
  refine ⟨raw.map (fun p => (p.1, p.2 / (raw.map Prod.snd).sum)), ?_, ?_, ?_⟩
  · unfold get_attention_weights
    rw [hraw, exceptBind_ok]
    dsimp only
    rw [if_pos hpos]
    rfl
  · unfold raw_attention_weights at hraw
    dsimp only at hraw
    obtain ⟨pairs, hloop, hpairs⟩ := mapM_bind_buildDict_ok hraw
    have hkeys : pairs.map Prod.fst = logs.map LogEntry.id := by
      have hf : ∀ (log : LogEntry) (v : String × ℝ),
          (do
            let similarity ← compute_similarity (embed query)
              ((List.lookup log.id (buildDict (List.map (fun (log : LogEntry) =>
                (log.id, embed log.content)) logs))).getD [])
            pure (log.id, (1 - tf) * similarity +
              tf * Real.exp (-((timedeltaDays (now - log.start_time) : ℤ) : ℝ) / 30)) :
            Except String (String × ℝ)) = Except.ok v → v.1 = log.id := by
        intro log v hv
        obtain ⟨s, _, hvs⟩ := except_bind_pure_ok hv
        rw [hvs]
      have := mapM_loop_attention_keys _ hf logs [] pairs hloop
      simpa using this
    rw [List.map_map]
    have hcomp : (Prod.fst ∘ fun p : String × ℝ =>
        (p.1, p.2 / (raw.map Prod.snd).sum)) = Prod.fst := rfl
    rw [hcomp, hpairs, buildDict_of_nodup_keys pairs (by rw [hkeys]; exact hids)]
    exact hkeys
  · rw [List.map_map]
    have hcomp : (Prod.snd ∘ fun p : String × ℝ =>
        (p.1, p.2 / (raw.map Prod.snd).sum)) =
        (fun p : String × ℝ => p.2 * ((raw.map Prod.snd).sum)⁻¹) := by
      funext p
      simp [div_eq_mul_inv]
    rw [hcomp, List.sum_map_mul_right]
    exact mul_inv_cancel₀ (ne_of_gt hpos)

/-- A concrete embedding assignment sending every text to the unit
vector `[1]`. -/
def unitEmbed : String → List ℝ := fun _ => [1]

lemma compute_similarity_unit : compute_similarity [(1 : ℝ)] [(1 : ℝ)] = Except.ok 1 := by
  unfold compute_similarity dotList l2norm
  norm_num [Real.sqrt_one]

/-- Witness for the amended C8 at a concrete input: one log identical to
the query at the reference time has raw attention 1 > 0, and the
returned distribution is exactly its id with weight summing to 1. -/
theorem attention_weights_normalised_sum_witness :
    ∃ res, get_attention_weights unitEmbed "q" [⟨"a", "c", 0, none⟩] 0 (3/10) =
        Except.ok res ∧
      res.map Prod.fst = ([⟨"a", "c", 0, none⟩] : List LogEntry).map LogEntry.id ∧
      (res.map Prod.snd).sum = 1 := by
  have hdays : timedeltaDays 0 = 0 := by decide
  have hraw : raw_attention_weights unitEmbed "q" [⟨"a", "c", 0, none⟩] 0 (3/10) =
      Except.ok [("a", 1)] := by
    unfold raw_attention_weights
    dsimp only
    simp [List.mapM, List.mapM.loop, buildDict, dictInsert, List.lookup, unitEmbed,
      compute_similarity_unit, hdays, Real.exp_zero]
  exact attention_weights_normalised_sum unitEmbed "q" [⟨"a", "c", 0, none⟩] 0 (3/10)
    [("a", 1)] (by decide) hraw (by norm_num)

/-- Model of `datetime.hour` for a timestamp in integer seconds. -/
def hourOf (t : ℤ) : ℤ := (Int.fdiv t 3600) % 24

/-- `'morning' if 5 <= hour < 12 else 'afternoon' if 12 <= hour < 17
else 'evening' if 17 <= hour < 21 else 'night'`. -/
def timeOfDayCategory (hour : ℤ) : String :=
  if 5 ≤ hour ∧ hour < 12 then "morning"
  else if 12 ≤ hour ∧ hour < 17 then "afternoon"
  else if 17 ≤ hour ∧ hour < 21 then "evening"
  else "night"

/-- Model of `datetime.strftime('%A')`: day 0 of the epoch was a
Thursday. -/
def weekdayOf (t : ℤ) : String :=
  (["Thursday", "Friday", "Saturday", "Sunday", "Monday", "Tuesday",
    "Wednesday"].getD ((Int.fdiv t 86400) % 7).toNat "")

/-- `d[k] = d.get(k, 0) + 1`. -/
def dictIncr (d : List (String × ℕ)) (k : String) : List (String × ℕ) :=
  dictInsert d k ((d.lookup k).getD 0 + 1)

/-- The histogram part of `MemoryAnalyzer.identify_patterns`. The
entity extractor (a set of regular expressions in the source) is taken
as a parameter; no claim depends on its internals. -/
structure MemoryPatterns where
  time_of_day : List (String × ℚ)
  weekday_activity : List (String × ℚ)
  entity_frequency : List (String × ℕ)
  top_entities : List String

/-- `MemoryAnalyzer.identify_patterns`: `{}` (here `none`) on an empty
list, else time-of-day and weekday histograms normalised to
percentages, the entity frequency dict and the ten most frequent
entities. -/
def identify_patterns (extractEntities : String → List String)
    (logs : List LogEntry) : Option MemoryPatterns :=
  if logs = [] then none
  else
    let tod := logs.foldl (fun d log =>
      dictIncr d (timeOfDayCategory (hourOf log.start_time))) []
    let wd := logs.foldl (fun d log => dictIncr d (weekdayOf log.start_time)) []
    let ef := logs.foldl (fun d log => (extractEntities log.content).foldl dictIncr d) []
    let top := ((ef.mergeSort (fun a b => decide (b.2 ≤ a.2))).take 10).map Prod.fst
    let total := (logs.length : ℚ)
    some { time_of_day := tod.map (fun p => (p.1, (p.2 : ℚ) / total * 100)),
           weekday_activity := wd.map (fun p => (p.1, (p.2 : ℚ) / total * 100)),
           entity_frequency := ef,
           top_entities := top }

/-- Maximal word-character runs of the lower-cased text; `\b`-delimited
tokens for the cluster regexes. -/
def wordRuns (s : String) : List String :=
  (s.toLower.split (fun c => !(c.isAlphanum || c = '_'))).filter (fun w => w ≠ "")

/-- The matches of `\b[a-z]{3,}\b`: word runs that are all lower-case
letters and at least three characters long. -/
def clusterWords (s : String) : List String :=
  (wordRuns s).filter (fun w => 3 ≤ w.length ∧ w.toList.all Char.isLower)

/-- The stop-word set of `_identify_topic_clusters`. -/
def stopWords : List String :=
  ["and", "the", "to", "of", "in", "for", "with", "on", "at", "from",
   "by", "about", "as", "is", "was", "were", "be", "been", "being",
   "have", "has", "had", "do", "does", "did", "but", "an", "this",
   "that", "these", "those", "am", "are", "will", "would", "should",
   "can", "could", "may", "might", "must", "shall", "should"]

/-- One topic cluster of `_identify_topic_clusters`. -/
structure TopicCluster where
  topic : String
  log_count : ℕ
  log_ids : List String
deriving DecidableEq

/-- `MemoryRecommendationEngine._identify_topic_clusters`: count
non-stop-words across the corpus, take the thirty most common, and for
each word occurring at least three times collect the ids of logs whose
content contains it as a whole word; keep clusters of at least two logs
with at most ten member ids. -/
def identify_topic_clusters (logs : List LogEntry) : List TopicCluster :=
  let all_words := logs.foldl (fun acc log => acc ++ clusterWords log.content) []
  let filtered_words := all_words.filter (fun w => decide (w ∉ stopWords))
  let word_counts := filtered_words.foldl dictIncr []
  let most_common := (word_counts.mergeSort (fun a b => decide (b.2 ≤ a.2))).take 30
  most_common.foldl (fun clusters p =>
    if 3 ≤ p.2 then
      let cluster_logs := (logs.filter (fun log =>
        decide (p.1 ∈ wordRuns log.content))).map LogEntry.id
      if 2 ≤ cluster_logs.length then
        clusters ++ [{ topic := p.1, log_count := cluster_logs.length,
                       log_ids := cluster_logs.take 10 }]
      else clusters
    else clusters) []

/-- Per-log connection counters of `_find_highly_connected_logs`. -/
structure ConnectionCount where
  temporal : ℕ
  semantic : ℕ
  total : ℕ
deriving DecidableEq

/-- `MemoryRecommendationEngine._find_highly_connected_logs`: count
temporal and semantic connections per log id and keep the ten ids with
the highest totals. -/
def find_highly_connected_logs (temporal_connections : List (String × List String))
    (semantic_connections : List (String × List (String × ℝ))) :
    List (String × ConnectionCount) :=
  let counts := temporal_connections.foldl (fun d p =>
    dictInsert d p.1 { temporal := p.2.length, semantic := 0, total := p.2.length }) []
  let counts := semantic_connections.foldl (fun d p =>
    match d.lookup p.1 with
    | some c => dictInsert d p.1
        { c with semantic := p.2.length, total := c.total + p.2.length }
    | none => dictInsert d p.1
        { temporal := 0, semantic := p.2.length, total := p.2.length }) counts
  (counts.mergeSort (fun a b => decide (b.2.total ≤ a.2.total))).take 10

/-- The structured report of `generate_memory_insights` (the ISO start
and end strings of the timeframe are represented by the log count). -/
structure InsightReport where
  timeframe_total_logs : ℕ
  activity_time_of_day : List (String × ℚ)
  activity_weekday : List (String × ℚ)
  top_entities : List (String × ℕ)
  semantic_clusters : List TopicCluster
  temporal_connection_count : ℕ
  semantic_connection_count : ℕ
  highly_connected_logs : List (String × ConnectionCount)

/-- The three possible returns of `generate_memory_insights`: the empty
dict for an empty corpus, the `No logs found in the specified
timeframe` message, or the full report. -/
inductive InsightResult where
  | emptyInsights
  | noRecentLogs
  | report (r : InsightReport)

/-- `MemoryRecommendationEngine.generate_memory_insights`: empty corpus
returns the empty dict; entries older than the trailing window are
filtered out; the semantic graph is built under try/except and degrades
to an empty dict on any error (for instance a dimension mismatch). -/
noncomputable def generate_memory_insights (embed : String → List ℝ)
    (extractEntities : String → List String) (logs : List LogEntry)
    (now : ℤ) (timeframe_days : ℤ := 30) : InsightResult :=
  if logs = [] then InsightResult.emptyInsights
  else
    let cutoff := now - timeframe_days * 86400
    let recent_logs := logs.filter (fun log => decide (cutoff ≤ log.start_time))
    if recent_logs = [] then InsightResult.noRecentLogs
    else
      let patterns := identify_patterns extractEntities recent_logs
      let temporal_connections := generate_temporal_connections recent_logs 3
      let semantic_connections :=
        match build_memory_graph embed recent_logs (6/10) with
        | Except.ok g => g
        | Except.error _ => []
      let entity_frequency := (patterns.map MemoryPatterns.entity_frequency).getD []
      InsightResult.report {
        timeframe_total_logs := recent_logs.length,
        activity_time_of_day := (patterns.map MemoryPatterns.time_of_day).getD [],
        activity_weekday := (patterns.map MemoryPatterns.weekday_activity).getD [],
        top_entities := (entity_frequency.mergeSort (fun a b => decide (b.2 ≤ a.2))).take 10,
        semantic_clusters := identify_topic_clusters recent_logs,
        temporal_connection_count := (temporal_connections.map (fun p => p.2.length)).sum,
        semantic_connection_count := (semantic_connections.map (fun p => p.2.length)).sum,
        highly_connected_logs :=
          find_highly_connected_logs temporal_connections semantic_connections }

/-- C9: `generateInsights` on an empty entry list returns the explicit
empty-insights value for every window and never an error: the guard
`if not logs: return {}` fires before any processing, and the model is
a total function. -/
theorem insights_empty_corpus (embed : String → List ℝ)
    (extractEntities : String → List String) (now : ℤ) (timeframe_days : ℤ) :
    generate_memory_insights embed extractEntities [] now timeframe_days =
      InsightResult.emptyInsights := by
  unfold generate_memory_insights
  rw [if_pos rfl]
